import Mathlib

/-!
Shallow embedding of the gallivant device-transaction core
(src/gallivant/src/evaluation/measurement.rs and
src/gallivant/src/execution/transaction.rs), together with theorems
settling the specification claims about it.

Bytes are modelled as `List Nat` (each element a `u8` value), strings as
`List Char`, and the fallible Rust functions as `Option`/`Except`-valued
Lean functions. Paths of the Rust code that invoke a panicking macro are
modelled by an explicit `panicked` outcome constructor.
-/

deriving instance DecidableEq for Except

namespace Gallivant

/-- The byte value of a carriage return, the terminator byte of the wire protocol. -/
def crByte : Nat := 13

/-- Model of `char::to_digit(16)` restricted to the hexadecimal digits
accepted by `u32::from_str_radix(_, 16)`: `0-9`, `a-f`, `A-F`. -/
def hexDigitVal (c : Char) : Option Nat :=
  if '0' ≤ c ∧ c ≤ '9' then some (c.toNat - '0'.toNat)
  else if 'a' ≤ c ∧ c ≤ 'f' then some (c.toNat - 'a'.toNat + 10)
  else if 'A' ≤ c ∧ c ≤ 'F' then some (c.toNat - 'A'.toNat + 10)
  else none

/-- The `u32` overflow bound used by `u32::from_str_radix`. -/
def u32Bound : Nat := 4294967296

/-- The digit-accumulation loop of `u32::from_str_radix(_, 16)`:
each step multiplies by the radix and adds the digit, failing on a
non-digit character or on `u32` overflow (`checked_mul`/`checked_add`). -/
def hexAccum : List Char → Nat → Option Nat
  | [], acc => some acc
  | c :: cs, acc =>
    match hexDigitVal c with
    | none => none
    | some d => if acc * 16 + d < u32Bound then hexAccum cs (acc * 16 + d) else none

/-- Model of `u32::from_str_radix(s, 16)`: an optional leading `+` sign
(an unsigned parse rejects `-` because it is not a digit), then at least
one hexadecimal digit, accumulated with per-step overflow checking. -/
def fromStrRadix16 (s : List Char) : Option Nat :=
  match s with
  | [] => none
  | c :: rest =>
    if c = '+' then
      if rest.isEmpty then none else hexAccum rest 0
    else hexAccum (c :: rest) 0

/-- One step of the UTF-8 validation loop of `std::str::from_utf8` and
the character iteration of `str::chars`: given the first byte and the
remaining bytes, decode one scalar value and return it with the bytes
that follow it, or fail. It enforces exactly the well-formedness
conditions Rust enforces: continuation bytes in `0x80..=0xBF`, no
overlong encodings, no surrogate code points, nothing above
`0x10FFFF`. -/
def utf8Step (b0 : Nat) (rest : List Nat) : Option (Char × List Nat) :=
  if b0 < 0x80 then
    some (Char.ofNat b0, rest)
  else if 0xC2 ≤ b0 ∧ b0 ≤ 0xDF then
    match rest with
    | b1 :: rest2 =>
      if 0x80 ≤ b1 ∧ b1 ≤ 0xBF then
        some (Char.ofNat ((b0 - 0xC0) * 0x40 + (b1 - 0x80)), rest2)
      else none
    | [] => none
  else if 0xE0 ≤ b0 ∧ b0 ≤ 0xEF then
    match rest with
    | b1 :: b2 :: rest3 =>
      if (if b0 = 0xE0 then 0xA0 else 0x80) ≤ b1 ∧
          b1 ≤ (if b0 = 0xED then 0x9F else 0xBF) ∧
          0x80 ≤ b2 ∧ b2 ≤ 0xBF then
        some (Char.ofNat ((b0 - 0xE0) * 0x1000 + (b1 - 0x80) * 0x40 + (b2 - 0x80)), rest3)
      else none
    | _ => none
  else if 0xF0 ≤ b0 ∧ b0 ≤ 0xF4 then
    match rest with
    | b1 :: b2 :: b3 :: rest4 =>
      if (if b0 = 0xF0 then 0x90 else 0x80) ≤ b1 ∧
          b1 ≤ (if b0 = 0xF4 then 0x8F else 0xBF) ∧
          0x80 ≤ b2 ∧ b2 ≤ 0xBF ∧ 0x80 ≤ b3 ∧ b3 ≤ 0xBF then
        some (Char.ofNat
          ((b0 - 0xF0) * 0x40000 + (b1 - 0x80) * 0x1000 +
            (b2 - 0x80) * 0x40 + (b3 - 0x80)), rest4)
      else none
    | _ => none
  else none

/-- The UTF-8 validation loop, structured on a step-count bound for
termination: apply `utf8Step` until the input is exhausted, failing as
soon as one step fails. Every step consumes at least one byte, so with
the bound initialized to the input length (as `utf8Decode` does) the
zero-bound arm is unreachable. -/
def utf8DecodeFuel : Nat → List Nat → Option (List Char)
  | _, [] => some []
  | 0, _ :: _ => none
  | fuel + 1, b0 :: rest =>
    match utf8Step b0 rest with
    | none => none
    | some (c, rem) => (utf8DecodeFuel fuel rem).map (fun cs => c :: cs)

/-- Model of `std::str::from_utf8`, returning the decoded scalar values
as a `List Char` on success. -/
def utf8Decode (l : List Nat) : Option (List Char) :=
  utf8DecodeFuel l.length l

/-- The `MeasurementTest` type from measurement.rs: an inclusive expected range
(the two bounds of the `RangeInclusive<u32>`), a retry budget and a
failure message. -/
structure MeasurementTest where
  expectedMin : Nat
  expectedMax : Nat
  retries : Nat
  failureMessage : String
deriving DecidableEq, Repr

/-- The wrapped source of a `measurement::Error::ParseError`
(the boxed `std::error::Error` built by the two `From` impls). -/
inductive ParseSource where
  | utf8Error
  | parseIntError
deriving DecidableEq, Repr

/-- The `measurement::Error` type from measurement.rs. -/
inductive MeasurementError where
  | TestFailed
  | TestFailedRetryable (test : MeasurementTest)
  | ParseError (source : ParseSource)
deriving DecidableEq, Repr

/-- The `source` method of the `std::error::Error` impl for
`measurement::Error`: only `ParseError` carries a chained source error. -/
def MeasurementError.errorSource : MeasurementError → Option ParseSource
  | .TestFailed => none
  | .TestFailedRetryable _ => none
  | .ParseError e => some e

/-- The impl `TryFrom<&[u8]> for Measurement` from measurement.rs: interpret the bytes as UTF-8 text,
keep the characters strictly before the first carriage return, and parse
them as a base-16 `u32`. The wrapped `Measurement(u32)` value is modelled
as the contained `Nat`. -/
def measurementTryFrom (bytes : List Nat) : Except MeasurementError Nat :=
  match utf8Decode bytes with
  | none => .error (.ParseError .utf8Error)
  | some s =>
    match fromStrRadix16 (s.takeWhile (fun c => c != '\r')) with
    | none => .error (.ParseError .parseIntError)
    | some v => .ok v

/-- The method `MeasurementTest::test` from measurement.rs: success iff the measurement lies in the
inclusive expected range; otherwise a retryable failure carrying the test
with the budget decremented when retries remain, and a terminal failure
when the budget is exhausted. -/
def MeasurementTest.test (self : MeasurementTest) (measurement : Nat) :
    Except MeasurementError Unit :=
  if self.expectedMin ≤ measurement ∧ measurement ≤ self.expectedMax then
    .ok ()
  else if self.retries > 0 then
    .error (.TestFailedRetryable { self with retries := self.retries - 1 })
  else
    .error .TestFailed

/-- The originating command attached to a transaction (`ParsedExpr` from
syntax/expression/expression.rs). The transaction engine never inspects
it — it is only cloned into diagnostics — so it is modelled as an
uninterpreted tag. -/
abbrev ParsedExpr : Type := Nat

/-- The `Device` enum from transaction.rs. -/
inductive Device where
  | TCU
  | Printer
deriving DecidableEq, Repr

/-- The `Transaction` type from transaction.rs. -/
structure Transaction where
  expression : ParsedExpr
  txbytes : List Nat
  txcomplete : Bool
  device : Device
  response : List Nat
  test : Option MeasurementTest
deriving DecidableEq

/-- The `TransactionStatus` type from transaction.rs. -/
inductive TransactionStatus where
  | Success
  | Ongoing (t : Transaction)
deriving DecidableEq

/-- Modelled from the spec: the crate-level `Error` type (src/error.rs is
not among the provided sources; only its constructors `from_io_error` and
`from_failed_test` are called here). Per the spec it is a unified failure
taxonomy carrying the originating command context. The terminal
test-failure constructor is modelled without a payload beyond the command
context: the source calls `Error::from_failed_test(self.expression, test)`
from a match arm written `measurement::Error::TestFailed(test)`, although
`TestFailed` is declared without a payload in measurement.rs. -/
inductive Error where
  | fromIoError (expression : ParsedExpr)
  | fromFailedTest (expression : ParsedExpr)
deriving DecidableEq

/-- The result of one `process`/`evaluate_response` call. The Rust
signature is `Result<TransactionStatus, Error>`; the extra `panicked`
constructor models the paths of the source that invoke a diverging macro
instead of returning. -/
inductive EvalOutcome where
  | ok (status : TransactionStatus)
  | error (e : Error)
  | panicked (msg : String)
deriving DecidableEq

/-- Model of `slice::split_inclusive`: splits after every element satisfying the
predicate, keeping the matched element at the end of its segment. An
unterminated trailing run forms a final segment; an empty slice yields no
segments. -/
def splitInclusive (p : Nat → Bool) : List Nat → List (List Nat)
  | [] => []
  | b :: rest =>
    if p b then [b] :: splitInclusive p rest
    else
      match splitInclusive p rest with
      | [] => [[b]]
      | part :: parts => (b :: part) :: parts

/-- The number of carriage-return-terminated segments
`Transaction::evaluate_response` expects, computed exactly as the source
computes `expected_endings`. -/
def Transaction.expectedEndings (self : Transaction) : Nat :=
  if self.test.isSome ∧ self.device = Device.TCU then 2
  else if self.test.isSome ∨ self.device = Device.TCU then 1
  else 0

/-- The method `Transaction::evaluate_response` from transaction.rs. The two `todo`
macro invocations of the source (echo mismatch, measurement parse
failure) and the `Option::unwrap` on the measurement segment are modelled
as `panicked` outcomes. -/
def Transaction.evaluateResponse (self : Transaction) : EvalOutcome :=
  let echoExpected := self.device = Device.TCU
  let expectedCount := self.expectedEndings
  if expectedCount = 0 then .ok .Success
  else
    let parts := splitInclusive (fun b => b == crByte) self.response
    if parts.length < expectedCount then .ok (.Ongoing self)
    else
      let echo := if echoExpected then parts.get? 0 else none
      let measurement := if echoExpected then parts.get? 1 else parts.get? 0
      if (echo.map (fun e => decide (e ≠ self.txbytes))).getD false then
        .panicked "Command echo incorrect"
      else
        match self.test with
        | none => .ok .Success
        | some test =>
          match measurement with
          | none => .panicked "unwrap on None"
          | some measurementBytes =>
            match measurementTryFrom measurementBytes with
            | .error _ => .panicked "Handle measurement parsing failure"
            | .ok m =>
              match test.test m with
              | .ok _ => .ok .Success
              | .error (.TestFailedRetryable updated) =>
                .ok (.Ongoing { self with test := some updated, txcomplete := false })
              | .error .TestFailed => .error (.fromFailedTest self.expression)
              | .error (.ParseError _) => .panicked "not yet implemented"

/-- A channel operation performed by `process` on the port: either one
`write_all` of the given bytes or one bounded `read` that returned the
given bytes. -/
inductive ChannelOp where
  | writeAll (bytes : List Nat)
  | readSome (bytes : List Nat)
deriving DecidableEq

/-- The byte channel (`T: Read + Write`) as seen by `process`: a flag
saying whether `write_all` succeeds, and the stream of pending input, as
the successive chunks a `read` call will find available. -/
structure Port where
  writeOk : Bool
  chunks : List (List Nat)
deriving DecidableEq

/-- The `read` buffer size used by `process` in transaction.rs. -/
def readBufferSize : Nat := 256

/-- One bounded `read` on the port: deliver up to `readBufferSize` bytes
of the next pending chunk (zero bytes when no input is pending), keeping
any remainder of the chunk pending. -/
def Port.read (p : Port) : List Nat × Port :=
  match p.chunks with
  | [] => ([], p)
  | c :: rest =>
    if c.length ≤ readBufferSize then (c, { p with chunks := rest })
    else (c.take readBufferSize, { p with chunks := c.drop readBufferSize :: rest })

/-- The method `Transaction::process` from transaction.rs, instrumented with the
list of channel operations the call performs. When the send is still
pending it writes the outgoing bytes and either finishes (Printer with no
test) or stays ongoing with the sent-flag set; otherwise it performs one
bounded read, appends the bytes to the accumulated response and evaluates
it. -/
def Transaction.process (self : Transaction) (port : Port) :
    EvalOutcome × Port × List ChannelOp :=
  if !self.txcomplete then
    if port.writeOk then
      let sent := { self with txcomplete := true }
      if sent.device = Device.Printer ∧ sent.test = none then
        (.ok .Success, port, [.writeAll self.txbytes])
      else
        (.ok (.Ongoing sent), port, [.writeAll self.txbytes])
    else
      (.error (.fromIoError self.expression), port, [.writeAll self.txbytes])
  else
    let (bytes, port2) := port.read
    let updated := { self with response := self.response ++ bytes }
    (updated.evaluateResponse, port2, [.readSome bytes])

/-- The terminal outcome of repeatedly invoking `process`, with fuel
bounding the number of invocations. -/
inductive DriveResult where
  | done
  | failed (e : Error)
  | crashed (msg : String)
  | starved
deriving DecidableEq

/-- Drive a transaction against a port by invoking `process` until it
reaches a terminal outcome, or the fuel runs out. -/
def drive : Nat → Transaction → Port → DriveResult
  | 0, _, _ => .starved
  | fuel + 1, t, p =>
    match t.process p with
    | (.ok .Success, _, _) => .done
    | (.ok (.Ongoing t2), p2, _) => drive fuel t2 p2
    | (.error e, _, _) => .failed e
    | (.panicked msg, _, _) => .crashed msg

/-- One digit step of the value of a hexadecimal literal:
multiply the accumulator by the radix and add the digit value. -/
def hexFoldStep (a : Nat) (c : Char) : Nat :=
  a * 16 + (hexDigitVal c).getD 0

/-- The numeric value of a list of hexadecimal digit characters. -/
def hexVal (t : List Char) : Nat :=
  t.foldl hexFoldStep 0

/-- Written from the words of the spec (section 4.1, as amended for the
leading sign accepted by `u32::from_str_radix`): the string is a valid
hexadecimal literal of value `v` when, after an optional leading `+`
sign, it consists of one or more hexadecimal digits whose value is `v`,
and `v` fits in 32 bits. Used to state the refinement theorem comparing
the source-derived parser with the spec. -/
def specHexLiteral (s : List Char) (v : Nat) : Prop :=
  ∃ t, (s = t ∨ s = '+' :: t) ∧ t ≠ [] ∧ (∀ c ∈ t, (hexDigitVal c).isSome) ∧
    hexVal t = v ∧ v < u32Bound

/-!
Theorems. Each claim of the specification is settled by one theorem
below, with witnesses for hypothesis-bearing theorems and counterexample
theorems for claims that fail on the code.
-/

/-- C2: `MeasurementTest::test` succeeds exactly on values inside the
inclusive `[min, max]` range; an out-of-range value with retries
remaining yields `TestFailedRetryable` embedding the test with the retry
budget decremented by one and the same range and message; an
out-of-range value with no retries left yields the payload-free terminal
`TestFailed`. Boundary values of the range `20..=30` both pass. -/
theorem measurementTest_grading_spec :
    (∀ (t : MeasurementTest) (m : Nat),
      t.test m = .ok () ↔ t.expectedMin ≤ m ∧ m ≤ t.expectedMax) ∧
    (∀ (t : MeasurementTest) (m : Nat),
      ¬(t.expectedMin ≤ m ∧ m ≤ t.expectedMax) → 0 < t.retries →
        t.test m = .error (.TestFailedRetryable
          ⟨t.expectedMin, t.expectedMax, t.retries - 1, t.failureMessage⟩)) ∧
    (∀ (t : MeasurementTest) (m : Nat),
      ¬(t.expectedMin ≤ m ∧ m ≤ t.expectedMax) → t.retries = 0 →
        t.test m = .error .TestFailed) ∧
    (MeasurementTest.mk 20 30 2 "msg").test 20 = .ok () ∧
    (MeasurementTest.mk 20 30 2 "msg").test 30 = .ok () := by
  refine ⟨?_, ?_, ?_, by decide, by decide⟩
  · intro t m
    rw [MeasurementTest.test]
    split_ifs with h <;> simp [h]
  · intro t m h1 h2
    rw [MeasurementTest.test, if_neg h1, if_pos h2]
  · intro t m h1 h2
    rw [MeasurementTest.test, if_neg h1, if_neg (by omega)]

/-- Witness for C2: grading the out-of-range value 15 against the range
`20..=30` with 2 retries left yields the retryable failure embedding the
test with 1 retry left. -/
theorem measurementTest_grading_spec_witness :
    (MeasurementTest.mk 20 30 2 "msg").test 15 =
      .error (.TestFailedRetryable (.mk 20 30 1 "msg")) :=
  measurementTest_grading_spec.2.1 (.mk 20 30 2 "msg") 15 (by decide) (by decide)

/-- C6 (the failing input): on a TCU transaction whose first
response segment (here the bytes of the text Y then a carriage return)
differs from the transmitted bytes (the text X then a carriage return),
`evaluate_response` reaches the `todo` macro of transaction.rs line 143
and panics instead of returning a typed error. -/
theorem evaluateResponse_echo_mismatch_panics :
    (Transaction.mk 0 [88, 13] true .TCU [89, 13] none).evaluateResponse =
      .panicked "Command echo incorrect" := by decide

/-- C7 (the failing input): on a sent Printer transaction carrying a
test whose measurement segment is the undecodable text ZZ followed by a
carriage return, the measurement decoder returns the typed, chained
`ParseError`, but `evaluate_response` discards it and reaches the `todo`
macro of transaction.rs line 150, panicking instead of surfacing the
error. -/
theorem evaluateResponse_decode_failure_panics :
    (Transaction.mk 0 [80] true .Printer [90, 90, 13]
        (some ⟨20, 30, 2, "m"⟩)).evaluateResponse =
      .panicked "Handle measurement parsing failure" ∧
    measurementTryFrom [90, 90, 13] = .error (.ParseError .parseIntError) ∧
    (MeasurementError.ParseError .parseIntError).errorSource =
      some .parseIntError := by decide

/-- C9 (the failing input): the same TCU transaction with a zero-retry
test over `20..=30`, transmitted bytes X then carriage return, and the
full response consisting of the echo followed by the measurement text 1A
(value 26, in range), driven to completion: delivered in one chunk the
exchange succeeds, but delivered as two chunks split inside the
measurement segment, the first evaluation grades the truncated
measurement text 1 (value 1, out of range) and fails terminally. -/
theorem drive_fragmentation_changes_outcome :
    drive 3 (Transaction.mk 0 [88, 13] false .TCU [] (some ⟨20, 30, 0, "f"⟩))
        (Port.mk true [[88, 13, 49, 65, 13]]) = .done ∧
    drive 3 (Transaction.mk 0 [88, 13] false .TCU [] (some ⟨20, 30, 0, "f"⟩))
        (Port.mk true [[88, 13, 49], [65, 13]]) = .failed (.fromFailedTest 0) ∧
    DriveResult.done ≠ DriveResult.failed (.fromFailedTest 0) := by decide

/-- The `expected_endings` computation of the source agrees with the
additive description used by the spec: one segment for a TCU echo plus
one segment for an attached measurement test. -/
theorem expectedEndings_eq_add (t : Transaction) :
    t.expectedEndings =
      (if t.device = Device.TCU then 1 else 0) + (if t.test.isSome then 1 else 0) := by
  rw [Transaction.expectedEndings]
  rcases t with ⟨e, tx, c, d, r, test⟩
  cases d <;> cases test <;> simp

/-- C4: a `process` call on an unsent transaction whose channel write
succeeds returns `Success` immediately when the device is Printer and no
measurement test is attached, and otherwise returns `Ongoing` carrying
the same transaction with the sent-flag set to true; the port input is
not consumed. -/
theorem process_unsent_spec (t : Transaction) (p : Port)
    (hunsent : t.txcomplete = false) (hw : p.writeOk = true) :
    (t.process p).1 =
      (if t.device = Device.Printer ∧ t.test = none then .ok .Success
        else .ok (.Ongoing { t with txcomplete := true })) ∧
    (t.process p).2.1 = p := by
  rw [Transaction.process, hunsent]
  simp only [Bool.not_false, if_true, hw]
  split_ifs with h <;> simp_all

/-- Witness for C4, Printer side: the first `process` call of an unsent
Printer transaction with no test returns `Success` directly. -/
theorem process_unsent_spec_witness :
    ((Transaction.mk 0 [80] false .Printer [] none).process (Port.mk true [])).1 =
      .ok .Success := by
  have h := process_unsent_spec (Transaction.mk 0 [80] false .Printer [] none)
    (Port.mk true []) rfl rfl
  simpa using h.1

/-- C5: `evaluate_response` expects one carriage-return-terminated
segment for a TCU echo plus one for an attached measurement test, and
whenever the accumulated response buffer splits (inclusively, the
terminator staying attached) into fewer segments than that, it returns
`Ongoing` with the transaction state unchanged, all accumulated bytes
retained. -/
theorem evaluateResponse_incomplete_spec (t : Transaction)
    (_hsent : t.txcomplete = true)
    (hlen : (splitInclusive (fun b => b == crByte) t.response).length <
      (if t.device = Device.TCU then 1 else 0) + (if t.test.isSome then 1 else 0)) :
    t.evaluateResponse = .ok (.Ongoing t) := by
  rw [← expectedEndings_eq_add] at hlen
  have hne : ¬ t.expectedEndings = 0 := by omega
  rw [Transaction.evaluateResponse]
  simp only [if_neg hne, if_pos hlen]

/-- Witness for C5: a sent TCU transaction carrying a test, whose buffer
holds a single unterminated byte, splits into one segment where two are
expected and stays `Ongoing` unchanged. -/
theorem evaluateResponse_incomplete_spec_witness :
    (Transaction.mk 0 [88, 13] true .TCU [65] (some ⟨20, 30, 2, "m"⟩)).evaluateResponse =
      .ok (.Ongoing (Transaction.mk 0 [88, 13] true .TCU [65] (some ⟨20, 30, 2, "m"⟩))) :=
  evaluateResponse_incomplete_spec
    (Transaction.mk 0 [88, 13] true .TCU [65] (some ⟨20, 30, 2, "m"⟩)) rfl (by decide)

/-- C8: every `process` invocation performs exactly one channel
operation — a single write of the outgoing bytes when the sent-flag is
false, and a single bounded read when it is true, never both. -/
theorem process_single_channel_op (t : Transaction) (p : Port) :
    ((t.process p).2.2).length = 1 ∧
    (t.process p).2.2 =
      (if t.txcomplete then [ChannelOp.readSome (p.read).1]
        else [ChannelOp.writeAll t.txbytes]) := by
  rw [Transaction.process]
  cases hc : t.txcomplete
  · simp only [Bool.not_false, if_true]
    split_ifs <;> simp_all
  · simp only [Bool.not_true, Bool.false_eq_true, if_false]
    rcases hp : p.read with ⟨bytes, p2⟩
    simp [hp]

/-- C1 (the counterexample): a sent TCU transaction with two retries
left whose buffer holds a matching echo and the out-of-range measurement
text 1: the retryable path returns `Ongoing` with the sent-flag cleared
and the decremented test, but the returned transaction still carries the
whole stale response buffer — it is not discarded, so the next
evaluation does not see only bytes of a fresh send/read cycle. -/
theorem evaluateResponse_retryable_retains_buffer :
    (Transaction.mk 0 [88, 13] true .TCU [88, 13, 49, 13]
        (some ⟨20, 30, 2, "m"⟩)).evaluateResponse =
      .ok (.Ongoing (Transaction.mk 0 [88, 13] false .TCU [88, 13, 49, 13]
        (some ⟨20, 30, 1, "m"⟩))) ∧
    ([88, 13, 49, 13] : List Nat) ≠ [] := by decide

/-- C1 (as amended): whenever the attached measurement test grades the
decoded measurement segment as a retryable failure, `evaluate_response`
returns `Ongoing` with the sent-flag reset to false and the attached
test replaced by the decremented test, while every other field —
including the accumulated response buffer, which is retained rather
than discarded — is unchanged. -/
theorem evaluateResponse_retryable_spec (t : Transaction) (tt : MeasurementTest)
    (mb : List Nat) (m : Nat)
    (ht : t.test = some tt)
    (hecho : t.device = Device.TCU →
      (splitInclusive (fun b => b == crByte) t.response).get? 0 = some t.txbytes)
    (hmb : (if t.device = Device.TCU
        then (splitInclusive (fun b => b == crByte) t.response).get? 1
        else (splitInclusive (fun b => b == crByte) t.response).get? 0) = some mb)
    (hdec : measurementTryFrom mb = .ok m)
    (hout : ¬(tt.expectedMin ≤ m ∧ m ≤ tt.expectedMax))
    (hr : 0 < tt.retries) :
    t.evaluateResponse =
      .ok (.Ongoing { t with test := some ({ tt with retries := tt.retries - 1 }), txcomplete := false }) := by
  have hgrade : tt.test m =
      .error (.TestFailedRetryable { tt with retries := tt.retries - 1 }) := by
    rw [MeasurementTest.test, if_neg hout, if_pos hr]
  cases hdevice : t.device with
  | TCU =>
    have he := hecho hdevice
    rw [if_pos hdevice] at hmb
    obtain ⟨hlt, -⟩ := List.get?_eq_some.mp hmb
    have hexp : t.expectedEndings = 2 := by
      rw [Transaction.expectedEndings]
      simp [ht, hdevice]
    simp only [Transaction.evaluateResponse, hexp, hdevice, ht, he, hmb, hdec, hgrade]
    simp [show ¬ (splitInclusive (fun b => b == crByte) t.response).length < 2 from
      by omega, hdec, hgrade]
  | Printer =>
    have hne : ¬ t.device = Device.TCU := by rw [hdevice]; simp
    rw [if_neg hne] at hmb
    obtain ⟨hlt, -⟩ := List.get?_eq_some.mp hmb
    have hexp : t.expectedEndings = 1 := by
      rw [Transaction.expectedEndings]
      simp [ht, hne]
    simp only [Transaction.evaluateResponse, hexp, hne, ht, hmb, hdec, hgrade]
    simp [List.length_pos.mp hlt, hdec, hgrade, hdevice]

/-- Witness for the amended C1: a sent TCU transaction holding a
matching echo and the out-of-range measurement text 1, with two retries
left, loops back to `Ongoing` with the sent-flag cleared, the test
decremented to one retry, and the response buffer retained. -/
theorem evaluateResponse_retryable_spec_witness :
    (Transaction.mk 0 [88, 13] true .TCU [88, 13, 49, 13]
        (some ⟨20, 30, 2, "m"⟩)).evaluateResponse =
      .ok (.Ongoing (Transaction.mk 0 [88, 13] false .TCU [88, 13, 49, 13]
        (some ⟨20, 30, 1, "m"⟩))) :=
  evaluateResponse_retryable_spec
    (Transaction.mk 0 [88, 13] true .TCU [88, 13, 49, 13] (some ⟨20, 30, 2, "m"⟩))
    ⟨20, 30, 2, "m"⟩ [49, 13] 1 rfl (by decide) (by decide) (by decide) (by decide)
    (by decide)


theorem le_foldl_hexFoldStep (t : List Char) (a : Nat) : a ≤ t.foldl hexFoldStep a := by
  induction t generalizing a with
  | nil => simp
  | cons c cs ih =>
    calc a ≤ hexFoldStep a c := by
          rw [hexFoldStep]
          have : a ≤ a * 16 := Nat.le_mul_of_pos_right a (by norm_num)
          omega
    _ ≤ (c :: cs).foldl hexFoldStep a := by
          rw [List.foldl_cons]
          exact ih (hexFoldStep a c)

theorem hexAccum_eq_some_iff (t : List Char) (a v : Nat) (ha : a < u32Bound) :
    hexAccum t a = some v ↔
      ((∀ c ∈ t, (hexDigitVal c).isSome) ∧ t.foldl hexFoldStep a = v ∧ v < u32Bound) := by
  induction t generalizing a with
  | nil =>
    simp only [hexAccum, List.foldl_nil, List.not_mem_nil, false_implies, implies_true,
      true_and, Option.some.injEq]
    constructor
    · rintro rfl
      exact ⟨rfl, ha⟩
    · rintro ⟨rfl, -⟩
      rfl
  | cons c cs ih =>
    cases hc : hexDigitVal c with
    | none =>
      simp only [hexAccum, hc]
      constructor
      · intro h
        exact absurd h (by simp)
      · rintro ⟨hall, -, -⟩
        have := hall c (List.mem_cons_self c cs)
        rw [hc] at this
        simp at this
    | some d =>
      simp only [hexAccum, hc]
      have hstep : hexFoldStep a c = a * 16 + d := by rw [hexFoldStep, hc]; rfl
      by_cases hlt : a * 16 + d < u32Bound
      · rw [if_pos hlt, ih _ hlt]
        simp [List.foldl_cons, hstep, hc]
      · rw [if_neg hlt]
        constructor
        · intro h
          exact absurd h (by simp)
        · rintro ⟨hall, hv, hvlt⟩
          exfalso
          rw [List.foldl_cons, hstep] at hv
          have := le_foldl_hexFoldStep cs (a * 16 + d)
          omega

theorem fromStrRadix16_eq_some_iff (s : List Char) (v : Nat) :
    fromStrRadix16 s = some v ↔ specHexLiteral s v := by
  have hplus : hexDigitVal '+' = none := by decide
  have hzlt : (0 : Nat) < u32Bound := by rw [u32Bound]; omega
  cases s with
  | nil =>
    constructor
    · intro h
      exact absurd h (by simp [fromStrRadix16])
    · rintro ⟨t, h1 | h2, hne, -⟩
      · exact absurd h1.symm hne
      · exact absurd h2.symm (List.cons_ne_nil _ _)
  | cons c rest =>
    by_cases hc : c = '+'
    · subst hc
      cases rest with
      | nil =>
        constructor
        · intro h
          exact absurd h (by simp [fromStrRadix16])
        · rintro ⟨t, h1 | h2, hne, hall, -⟩
          · exfalso
            have hm : '+' ∈ t := h1 ▸ List.mem_singleton_self '+'
            have hd := hall _ hm
            rw [hplus] at hd
            simp at hd
          · exfalso
            apply hne
            have h3 := congrArg List.tail h2
            simpa using h3.symm
      | cons c2 rest2 =>
        rw [fromStrRadix16, if_pos rfl, if_neg (by simp)]
        rw [hexAccum_eq_some_iff _ 0 v hzlt]
        constructor
        · rintro ⟨hall, hval, hlt⟩
          exact ⟨c2 :: rest2, Or.inr rfl, List.cons_ne_nil _ _, hall, hval, hlt⟩
        · rintro ⟨t, h1 | h2, hne, hall, hval, hlt⟩
          · exfalso
            have hm : '+' ∈ t := h1 ▸ List.mem_cons_self '+' (c2 :: rest2)
            have hd := hall _ hm
            rw [hplus] at hd
            simp at hd
          · have heq : t = c2 :: rest2 := by
              have h3 := congrArg List.tail h2
              simpa using h3.symm
            subst heq
            exact ⟨hall, hval, hlt⟩
    · rw [fromStrRadix16, if_neg hc]
      rw [hexAccum_eq_some_iff _ 0 v hzlt]
      constructor
      · rintro ⟨hall, hval, hlt⟩
        exact ⟨c :: rest, Or.inl rfl, List.cons_ne_nil _ _, hall, hval, hlt⟩
      · rintro ⟨t, h1 | h2, hne, hall, hval, hlt⟩
        · subst h1
          exact ⟨hall, hval, hlt⟩
        · exfalso
          apply hc
          have h3 := congrArg List.head? h2
          simpa using h3

theorem measurementTryFrom_ok_iff (bytes : List Nat) (v : Nat) :
    measurementTryFrom bytes = .ok v ↔
      ∃ s, utf8Decode bytes = some s ∧
        specHexLiteral (s.takeWhile (fun c => c != '\r')) v := by
  cases hu : utf8Decode bytes with
  | none =>
    simp only [measurementTryFrom, hu]
    constructor
    · intro h
      exact absurd h (by simp)
    · rintro ⟨s2, hs2, -⟩
      exact absurd hs2 (by simp)
  | some s =>
    simp only [measurementTryFrom, hu]
    cases hr : fromStrRadix16 (s.takeWhile (fun c => c != '\r')) with
    | none =>
      constructor
      · intro h
        exact absurd h (by simp)
      · rintro ⟨s2, hs2, hspec⟩
        obtain rfl : s2 = s := (Option.some_inj.mp hs2).symm
        rw [← fromStrRadix16_eq_some_iff] at hspec
        rw [hr] at hspec
        exact absurd hspec (by simp)
    | some w =>
      constructor
      · intro h
        obtain rfl : w = v := by simpa using h
        exact ⟨s, rfl, (fromStrRadix16_eq_some_iff _ _).mp hr⟩
      · rintro ⟨s2, hs2, hspec⟩
        obtain rfl : s2 = s := (Option.some_inj.mp hs2).symm
        rw [← fromStrRadix16_eq_some_iff] at hspec
        rw [hr] at hspec
        obtain rfl : w = v := by simpa using hspec
        rfl

/-- C3 (the counterexample): the byte sequence of the text +1A followed
by a carriage return is valid text whose prefix before the carriage
return contains the character +, which is not a hexadecimal digit — yet
decoding succeeds with value 26, because `u32::from_str_radix` accepts
one leading plus sign. -/
theorem measurementTryFrom_accepts_plus :
    measurementTryFrom [43, 49, 65, 13] = .ok 26 ∧
    utf8Decode [43, 49, 65, 13] = some ['+', '1', 'A', '\r'] ∧
    hexDigitVal '+' = none := by decide

/-- C3 (as amended): measurement decoding succeeds with value `v` iff
the bytes are valid UTF-8 text whose prefix strictly before the first
carriage return is, after an optional leading plus sign, a nonempty
string of hexadecimal digits of value `v` fitting in 32 bits; in
particular the bytes of the text 001A and a carriage return decode to
26, while the text ZZ and invalid UTF-8 bytes fail with decode errors. -/
theorem measurementTryFrom_spec :
    (∀ (bytes : List Nat) (v : Nat),
      measurementTryFrom bytes = .ok v ↔
        ∃ s, utf8Decode bytes = some s ∧
          specHexLiteral (s.takeWhile (fun c => c != '\r')) v) ∧
    measurementTryFrom [48, 48, 49, 65, 13] = .ok 26 ∧
    measurementTryFrom [90, 90, 13] = .error (.ParseError .parseIntError) ∧
    measurementTryFrom [49, 65, 13, 255] = .error (.ParseError .utf8Error) :=
  ⟨measurementTryFrom_ok_iff, by decide, by decide, by decide⟩

theorem utf8Step_ascii (b : Nat) (hb : b < 0x80) (rest : List Nat) :
    utf8Step b rest = some (Char.ofNat b, rest) := by
  rw [utf8Step.eq_def, if_pos hb]

theorem utf8Decode_ascii_cons (b : Nat) (hb : b < 0x80) (l : List Nat) :
    utf8Decode (b :: l) = (utf8Decode l).map (fun cs => Char.ofNat b :: cs) := by
  show utf8DecodeFuel (l.length + 1) (b :: l) = _
  rw [utf8DecodeFuel, utf8Step_ascii b hb l]
  rfl

/-- C10: measurement decoding validates the whole byte slice as UTF-8,
not only the prefix before the first carriage return: for the prefix
bytes of the text 1A and a carriage return, any continuation that is
itself valid UTF-8 decodes successfully to 26 with everything after the
carriage return ignored, while the continuation byte 255 (invalid
UTF-8) makes the whole decode fail. -/
theorem measurementTryFrom_validates_whole_slice :
    (∀ (rest : List Nat) (s : List Char), utf8Decode rest = some s →
      measurementTryFrom (0x31 :: 0x41 :: crByte :: rest) = .ok 26) ∧
    measurementTryFrom [0x31, 0x41, crByte, 0xFF] = .error (.ParseError .utf8Error) := by
  refine ⟨?_, by decide⟩
  intro rest s h
  have h1 : utf8Decode (0x31 :: 0x41 :: crByte :: rest) =
      some ('1' :: 'A' :: '\r' :: s) := by
    rw [utf8Decode_ascii_cons _ (by norm_num), utf8Decode_ascii_cons _ (by norm_num),
      utf8Decode_ascii_cons _ (by rw [crByte]; norm_num), h]
    rfl
  have h2 : ('1' :: 'A' :: '\r' :: s).takeWhile (fun c => c != '\r') = ['1', 'A'] := by
    rw [List.takeWhile_cons, if_pos (by decide), List.takeWhile_cons, if_pos (by decide),
      List.takeWhile_cons, if_neg (by decide)]
  have h3 : measurementTryFrom (0x31 :: 0x41 :: crByte :: rest) =
      match fromStrRadix16 (('1' :: 'A' :: '\r' :: s).takeWhile (fun c => c != '\r')) with
      | none => Except.error (.ParseError .parseIntError)
      | some v => Except.ok v := by
    rw [measurementTryFrom, h1]
  rw [h3, h2]
  decide

/-- Witness for C10: with the valid-UTF-8 continuation spelling the text
GARBAGE, the bytes of 1A, a carriage return and that continuation decode
to 26. -/
theorem measurementTryFrom_validates_whole_slice_witness :
    measurementTryFrom (0x31 :: 0x41 :: crByte :: [71, 65, 82, 66, 65, 71, 69]) =
      .ok 26 :=
  measurementTryFrom_validates_whole_slice.1 [71, 65, 82, 66, 65, 71, 69]
    ['G', 'A', 'R', 'B', 'A', 'G', 'E'] (by decide)

end Gallivant
